import Mathlib

/-!
Verification of the javascript-antiplagiarism router runtime, tamper verifier
and build-time analyzer (shallow embedding of
`websitecode/recompiled/file1.js` and the bundled `RouterCallsCreator.js`).

JavaScript byte arrays (`Uint8Array`) are embedded as `List Nat`, hex strings
as `String`, thrown JavaScript exceptions as `Except String`, and the
browser's asynchronously populated `window.globalHashes` table as a function
`String → Option String`.
-/

namespace JsAntiplagiarism

/-! ## String helpers

The runtime splits paths with `file.split(/[\\/]/)` (both separators) and the
tamper verifier with `fullPath.split('\\')` (backslash only).  We embed
JavaScript's `String.split` for a class of single characters as a function on
`List Char`; like the JS original it keeps empty segments and returns at least
one (possibly empty) segment. -/

/-- Split a character list at every separator character, keeping empty
segments, as JavaScript `String.split` does for a character class. -/
def splitSep (isSep : Char → Bool) : List Char → List (List Char)
  | [] => [[]]
  | c :: cs =>
    match splitSep isSep cs with
    | [] => [[]]
    | s :: ss => if isSep c then [] :: s :: ss else (c :: s) :: ss

/-- JavaScript `array.pop()` on the non-empty result of a split: the last
segment. -/
def jsLast (l : List (List Char)) : List Char := l.getLastD []

/-- Path separator test used by the router runtime's regex `/[\\/]/`. -/
def isPathSep (c : Char) : Bool := c = '\\' || c = '/'

/-- Router runtime, file1.js line 93: `file.split(/[\\/]/).pop()` — the bare
file name of a path, for both separator styles. -/
def routerFileNameOf (p : String) : String :=
  String.mk (jsLast (splitSep isPathSep p.toList))

/-- Tamper verifier, file1.js line 327: `fullPath.split('\\').pop()` — note it
splits on backslashes only. -/
def verifierKeyOf (p : String) : String :=
  String.mk (jsLast (splitSep (fun c => c = '\\') p.toList))

/-- Embedding of JavaScript `callString.split("-")` and `str.split(",")`
(single-character string separator). -/
def jsSplit (sep : Char) (s : String) : List String :=
  (splitSep (fun c => c = sep) s.toList).map String.mk

/-- JavaScript `s.endsWith(suffix)`. -/
def jsEndsWith (s suffix : String) : Bool :=
  List.isSuffixOf suffix.toList s.toList

/-! ## Hex and XOR helpers (file1.js lines 155-208) -/

/-- Value of one hexadecimal digit, upper or lower case (the digits
`parseInt(_, 16)` accepts). -/
def hexCharVal (c : Char) : Option Nat :=
  if '0' ≤ c ∧ c ≤ '9' then some (c.toNat - '0'.toNat)
  else if 'a' ≤ c ∧ c ≤ 'f' then some (c.toNat - 'a'.toNat + 10)
  else if 'A' ≤ c ∧ c ≤ 'F' then some (c.toNat - 'A'.toNat + 10)
  else none

/-- `parseInt(twoChars, 16)` followed by the `Uint8Array` element store.
`parseInt` parses the longest hex prefix (`NaN`, stored as `0`, when the first
character is not a digit).  Signs and leading whitespace, which no hash or
mask string contains, are not modelled. -/
def hexPairVal (c1 c2 : Char) : Nat :=
  match hexCharVal c1, hexCharVal c2 with
  | some v1, some v2 => 16 * v1 + v2
  | some v1, none => v1
  | none, _ => 0

/-- The byte list a hex string of even length decodes to
(file1.js lines 162-165). -/
def hexPairs : List Char → List Nat
  | c1 :: c2 :: rest => hexPairVal c1 c2 :: hexPairs rest
  | _ => []

/-- file1.js lines 158-167, `hexStringToUint8Array`: throws
`"Invalid hexString"` on odd length, otherwise decodes hex pairs. -/
def hexStringToUint8Array (s : String) : Except String (List Nat) :=
  if s.length % 2 ≠ 0 then .error "Invalid hexString"
  else .ok (hexPairs s.toList)

/-- Lower-case hex digit character for a value below 16 (as
`Number.prototype.toString(16)` produces). -/
def hexDigitChar (n : Nat) : Char :=
  if n < 10 then Char.ofNat (48 + n) else Char.ofNat (87 + n)

/-- file1.js line 206, `('00' + b.toString(16)).slice(-2)`: the last two hex
digits of a byte, zero-padded; for every `b` this equals the two digits of
`b % 256`. -/
def byteToHexPair (b : Nat) : List Char :=
  [hexDigitChar (b / 16 % 16), hexDigitChar (b % 16)]

/-- file1.js lines 204-208, `uint8ArrayToHexString`. -/
def uint8ArrayToHexString (bs : List Nat) : String :=
  String.mk ((bs.map byteToHexPair).flatten)

/-- Pure byte-wise XOR of two equal-length buffers (the loop body of
`xorBuffers`). -/
def xorBytes (a b : List Nat) : List Nat :=
  List.zipWith (fun x y => x ^^^ y) a b

/-- file1.js lines 172-181, `xorBuffers`: throws when the lengths differ,
otherwise XORs byte-wise. -/
def xorBuffers (a b : List Nat) : Except String (List Nat) :=
  if a.length ≠ b.length then .error "Buffers must be of equal length"
  else .ok (xorBytes a b)

/-- `new Uint8Array(32)`: the 32-byte zero accumulator. -/
def zeros32 : List Nat := List.replicate 32 0

/-- The hash-fold pattern shared by `computeKeyForRouterFile` and
`routerForwardCall`: fold a list of hash buffers into the 32-byte zero
accumulator with `xorBuffers`. -/
def xorFold (hashes : List (List Nat)) : Except String (List Nat) :=
  hashes.foldlM xorBuffers zeros32

/-! ## The dependency tree (spec §3 `DependencyNode`)

`{ routerDependant: bool, dependencies: mapping<FilePath, DependencyNode> }`;
the dependency mapping is embedded as an ordered association sequence
(JavaScript object keys enumerate in insertion order), unrolled into the
mutually inductive `DepList` so that all traversals are structurally
recursive. -/

mutual
inductive Node where
  | mk (routerDependant : Bool) (dependencies : DepList)
inductive DepList where
  | nil
  | cons (path : String) (node : Node) (rest : DepList)
end

/-- The `routerDependant` flag of a node. -/
def Node.routerDependant : Node → Bool
  | .mk r _ => r

/-- The `dependencies` mapping of a node. -/
def Node.dependencies : Node → DepList
  | .mk _ d => d

/-! Every file path stored anywhere in a dependency mapping, in the preorder
both traversals use. -/
mutual
def allPathsD : DepList → List String
  | .nil => []
  | .cons p n rest => p :: (allPathsN n ++ allPathsD rest)
def allPathsN : Node → List String
  | .mk _ ds => allPathsD ds
end

/-! The file paths of the non-router-dependent nodes of a dependency mapping,
in preorder. -/
mutual
def nonRouterPathsD : DepList → List String
  | .nil => []
  | .cons p n rest =>
    (if n.routerDependant then [] else [p]) ++ nonRouterPathsN n ++ nonRouterPathsD rest
def nonRouterPathsN : Node → List String
  | .mk _ ds => nonRouterPathsD ds
end

/-! ## Build side: `collectHashesFromDependencies` and
`computeKeyForRouterFile` (RouterCallsCreator.js lines 610-665)

The build walks the dependency mapping with one `visited` set threaded
through the whole recursion, skipping a file (subtree included) once visited,
and records for every newly visited non-router-dependent file with (truthy,
i.e. non-empty) recorded content the hex SHA-256 digest of that content.
`sha` abstracts `crypto.createHash('sha256')...digest('hex')`.  The source
converts each digest to bytes at collection time and XORs the byte arrays in
`computeKeyForRouterFile`; the conversion is inlined into the fold here. -/

mutual
def collectHashesD (fc : String → Option String) (sha : String → String) :
    DepList → List String → List (String × String) × List String
  | .nil, visited => ([], visited)
  | .cons p n rest, visited =>
    if p ∈ visited then collectHashesD fc sha rest visited
    else
      let visited1 := p :: visited
      let own : List (String × String) :=
        if n.routerDependant then []
        else
          match fc p with
          | some c => if c = "" then [] else [(p, sha c)]
          | none => []
      let subR := collectHashesN fc sha n visited1
      let restR := collectHashesD fc sha rest subR.2
      (own ++ subR.1 ++ restR.1, restR.2)
def collectHashesN (fc : String → Option String) (sha : String → String) :
    Node → List String → List (String × String) × List String
  | .mk _ ds, visited => collectHashesD fc sha ds visited
end

/-- What one non-router-dependent file contributes to the collected table:
its hex digest, provided its content is recorded and truthy. -/
def collectedEntry (fc : String → Option String) (sha : String → String)
    (p : String) : Option (String × String) :=
  match fc p with
  | some c => if c = "" then none else some (p, sha c)
  | none => none

/-- One step of `computeKeyForRouterFile`'s fold: decode a collected hex
digest (`hexStringToUint8Array`) and XOR it into the accumulator. -/
def collectedHashStep (acc : List Nat) (pr : String × String) :
    Except String (List Nat) :=
  match hexStringToUint8Array pr.2 with
  | .error e => .error e
  | .ok hb => xorBuffers acc hb

/-- RouterCallsCreator.js lines 647-665, `computeKeyForRouterFile`: fold the
collected dependency hashes into a 32-byte zero accumulator with `xorBuffers`
and XOR the mask.  The mask is the raw 32-byte random value
(`randomBytesUint8Array(32)`). -/
def computeKeyForRouterFile (routerNode : Node) (fc : String → Option String)
    (sha : String → String) (mask : List Nat) : Except String (List Nat) :=
  match (collectHashesN fc sha routerNode []).1.foldlM collectedHashStep zeros32 with
  | .error e => .error e
  | .ok x => xorBuffers x mask

/-! ## Run side: `routerForwardCall`'s synchronous pipeline
(file1.js lines 37-153) -/

/-! The inner `collectDeps` closure (file1.js lines 72-80): walk a dependency
mapping pushing every not-yet-visited non-router-dependent path onto the
branch list, and recurse into every node regardless of its flag or visit
state.  Both `branchFiles` and `visited` are outer mutable variables, so they
are threaded through the whole traversal. -/
mutual
def collectDepsD : DepList → List String → List String → List String × List String
  | .nil, branch, visited => (branch, visited)
  | .cons p n rest, branch, visited =>
    let step :=
      if n.routerDependant = false ∧ p ∉ visited then (branch ++ [p], p :: visited)
      else (branch, visited)
    let subR := collectDepsN n step.1 step.2
    collectDepsD rest subR.1 subR.2
def collectDepsN : Node → List String → List String → List String × List String
  | .mk _ ds, branch, visited => collectDepsD ds branch visited
end

/-- The dependency tree artifact: one root entry per project file. -/
abbrev DependencyTree := List (String × Node)

/-- file1.js lines 66-67: the first root whose full path ends with the file
key (`f.endsWith(fileKey)`), with `break` on the first match. -/
def findRoot (tree : DependencyTree) (fileKey : String) : Option (String × Node) :=
  tree.find? (fun r => jsEndsWith r.1 fileKey)

/-- file1.js lines 64-83: branch collection.  When the matched root is not
router-dependent the code pushes it and then runs `visited.add(dep)` where
`dep` is not in scope, throwing a `ReferenceError`; when it is
router-dependent only `collectDeps` runs.  No matching root leaves the branch
list empty. -/
def branchFilesOf (tree : DependencyTree) (fileKey : String) :
    Except String (List String) :=
  match findRoot tree fileKey with
  | none => .ok []
  | some (_, n) =>
    if n.routerDependant then .ok (collectDepsN n [] []).1
    else .error "ReferenceError: dep is not defined"

/-- file1.js lines 90-98: XOR into a fresh 32-byte accumulator the decoded
live hash of every branch file that has one (`window.globalHashes` lookup by
bare file name); files with no live hash are skipped.  Decoding or XORing a
malformed hash throws. -/
def branchHashStep (live : String → Option String) (acc : List Nat)
    (file : String) : Except String (List Nat) :=
  match live (routerFileNameOf file) with
  | some hashHex =>
    match hexStringToUint8Array hashHex with
    | .error e => .error e
    | .ok hb => xorBuffers acc hb
  | none => pure acc

def foldBranchHashes (branch : List String) (live : String → Option String) :
    Except String (List Nat) :=
  branch.foldlM (branchHashStep live) zeros32

/-- JavaScript truthiness of the `xorResult` accumulator in the
`if (!xorResult)` guard (file1.js line 99): a `Uint8Array` object is always
truthy, so the guard condition is constantly false. -/
def uint8ArrayFalsy (_ : List Nat) : Bool := false

/-- How far `routerForwardCall`'s synchronous phase got:  the four logged
early returns, or the reconstructed AES key handed to `importKey`. -/
inductive RouterSyncResult where
  | noMapping
  | noMask
  | noBranch
  | noHashes
  | key (k : List Nat)
deriving DecidableEq

/-- file1.js lines 62-111: branch collection, hash fold, dead `!xorResult`
guard, and mask XOR, producing the key passed to AES-CBC import. -/
def routerReconstructKey (tree : DependencyTree) (fileKey : String)
    (live : String → Option String) (maskHex : String) :
    Except String RouterSyncResult :=
  match branchFilesOf tree fileKey with
  | .error e => .error e
  | .ok branch =>
    if branch.isEmpty then .ok .noBranch
    else
      match foldBranchHashes branch live with
      | .error e => .error e
      | .ok x =>
        if uint8ArrayFalsy x then .ok .noHashes
        else
          match hexStringToUint8Array maskHex with
          | .error e => .error e
          | .ok maskBuffer =>
            match xorBuffers x maskBuffer with
            | .error e => .error e
            | .ok finalKeyRaw => .ok (.key finalKeyRaw)

/-- One file's entry of the embedded IV mapping (spec §3 `IVMapping`): the
optional `mask` hex string and the ciphertext → IV pairs in insertion
order. -/
structure MappingEntry where
  mask : Option String
  pairs : List (String × String)

/-- file1.js lines 37-111: the synchronous phase of `routerForwardCall` —
file-key normalization, IV-mapping and mask lookup (`!mappingForFile.mask`
also rejects an empty mask string), then key reconstruction. -/
def routerForwardCallSync (tree : DependencyTree)
    (ivsMapping : List (String × MappingEntry)) (live : String → Option String)
    (callee : String) : Except String RouterSyncResult :=
  let fileKey := if jsEndsWith callee ".js" then callee else callee ++ ".js"
  match (ivsMapping.find? (fun e => e.1 = fileKey)).map Prod.snd with
  | none => .ok .noMapping
  | some entry =>
    match entry.mask with
    | none => .ok .noMask
    | some m =>
      if m = "" then .ok .noMask
      else routerReconstructKey tree fileKey live m

/-- file1.js lines 119-128: look up the IV for the literal ciphertext string,
skipping the `mask` key. -/
def routerIvLookup (entry : MappingEntry) (callString : String) : Option String :=
  (entry.pairs.find? (fun p => p.1 = callString)).map Prod.snd

/-! ## Call descriptor parsing and dispatch: `parseAndCall`
(file1.js lines 210-279) -/

/-- The JavaScript values a decoded call descriptor can produce as
arguments. -/
inductive JSVal where
  | str (s : String)
  | num (i : Int)
  | nan
  | bool (b : Bool)
  | null
  | arr (elems : List JSVal)

/-- Value of a non-empty decimal digit string. -/
def decDigitsVal (ds : List Char) : Nat :=
  ds.foldl (fun a c => 10 * a + (c.toNat - 48)) 0

/-- JavaScript `Number(value)` restricted to the optionally negated decimal
integer strings the descriptor syntax uses (`""` converts to `0`; anything
else non-numeric to `NaN`). -/
def jsNumber (s : String) : JSVal :=
  match s.toList with
  | [] => .num 0
  | '-' :: ds => if ds ≠ [] ∧ ds.all Char.isDigit
      then .num (-(decDigitsVal ds : Int)) else .nan
  | ds => if ds.all Char.isDigit then .num (decDigitsVal ds) else .nan

/-- JavaScript `value.toLowerCase()` (ASCII range, which covers the
`"true"`/`"false"` literals compared here). -/
def jsToLower (s : String) : String := s.map Char.toLower

/-- `JSON.parse(value)` restricted to primitive literals — the only JSON texts
reachable here, because the value field was previously split on commas. -/
def jsonParseModel (s : String) : Option JSVal :=
  if s = "null" then some .null
  else if s = "true" then some (.bool true)
  else if s = "false" then some (.bool false)
  else match jsNumber s with
    | .num i => some (.num i)
    | _ => none

/-- file1.js lines 238-260: convert one declared value by its declared type
(`string` passthrough, `number` via `Number`, `boolean` by case-insensitive
comparison with `"true"`, `object` via `JSON.parse` with `null` on parse
failure, `null` → null, anything else passthrough with a warning). -/
def convertParam (ty v : String) : JSVal :=
  match ty with
  | "string" => .str v
  | "number" => jsNumber v
  | "boolean" => .bool (jsToLower v = "true")
  | "object" =>
    match jsonParseModel v with
    | some j => j
    | none => .null
  | "null" => .null
  | _ => .str v

/-- file1.js lines 210-279, `parseAndCall`: split the descriptor on dashes;
with no rest arguments require exactly 4 fields and decode the declared
parameters (both fields `"null"` → no parameters); with rest arguments
dispatch them as-is.  Dispatch happens only when the function name is a
function on `window` (`registry`); the result is the dispatched name and
argument list, or `none` when nothing is dispatched.  An absent `parts[1]`
reads as the property key `"undefined"`. -/
def parseAndCall (callString _caller : String) (args : List JSVal)
    (registry : String → Bool) : Option (String × List JSVal) :=
  let parts := jsSplit '-' callString
  let functionName := (parts.get? 1).getD "undefined"
  if args.isEmpty then
    match parts with
    | [_, fn, paramTypesStr, paramValuesStr] =>
      let params? : Option (List JSVal) :=
        if paramTypesStr ≠ "null" ∧ paramValuesStr ≠ "null" then
          let types := jsSplit ',' paramTypesStr
          let values := jsSplit ',' paramValuesStr
          if types.length ≠ values.length then none
          else some ((types.zip values).map (fun tv => convertParam tv.1 tv.2))
        else some []
      match params? with
      | none => none
      | some params => if registry fn then some (fn, params) else none
    | _ => none
  else
    if registry functionName then some (functionName, args) else none

/-- file1.js lines 144-148: after decryption, `routerForwardCall` calls
`parseAndCall(plaintext, callee)` when it received no trailing arguments, and
`parseAndCall(plaintext, callee, args)` — passing the argument *array* as a
single value, not spread — when it did. -/
def routerParsePhase (plaintext callee : String) (routerArgs : List JSVal)
    (registry : String → Bool) : Option (String × List JSVal) :=
  if routerArgs.isEmpty then parseAndCall plaintext callee [] registry
  else parseAndCall plaintext callee [JSVal.arr routerArgs] registry

/-- file1.js lines 118-152: the promise chain after key import — IV lookup
(abort when absent), decryption (abstracted by `decrypt`, `none` = failure),
then parse and dispatch.  Every failure inside the chain is caught by the
final `.catch`, so this phase is total and never propagates an exception. -/
def routerAsyncPhase (entry : MappingEntry) (callString callee : String)
    (decrypt : String → String → Option String) (routerArgs : List JSVal)
    (registry : String → Bool) : Option (String × List JSVal) :=
  match routerIvLookup entry callString with
  | none => none
  | some iv =>
    match decrypt callString iv with
    | none => none
    | some plaintext => routerParsePhase plaintext callee routerArgs registry

/-! ## Tamper verifier: `verifyHashes` (file1.js lines 320-344) -/

/-- JavaScript object assignment `m[k] = v`: overwrite the value in place when
the key exists (its enumeration position is kept), otherwise append. -/
def insertOverwrite {α : Type} (m : List (String × α)) (k : String) (v : α) :
    List (String × α) :=
  if m.any (fun p => p.1 = k) then
    m.map (fun p => if p.1 = k then (k, v) else p)
  else m ++ [(k, v)]

/-- file1.js lines 323-329: reduce the precomputed table's full build paths to
bare names with `fullPath.split('\\').pop()`, building
`simplifiedPrecomputed` in enumeration order. -/
def simplifyPrecomputed (precomputed : List (String × String)) :
    List (String × String) :=
  precomputed.foldl (fun m pr => insertOverwrite m (verifierKeyOf pr.1) pr.2) []

/-- One entry fails the check when its precomputed hash is falsy (empty) or
the live table's hash is absent or different
(`!expectedHash || actualHash !== expectedHash`, file1.js line 336). -/
def entryMismatch (live : String → Option String) (p : String × String) : Bool :=
  p.2 = "" || live p.1 ≠ some p.2

/-- file1.js lines 321-344, `verifyHashes`: scan the simplified precomputed
table in order and stop at the first mismatching entry, which triggers
`showTamperOverlay`; `none` means every comparison passed and only the
success message is logged. -/
def verifyHashes (precomputed : List (String × String))
    (live : String → Option String) : Option String :=
  ((simplifyPrecomputed precomputed).find? (entryMismatch live)).map Prod.fst

/-! ## Startup wait: `waitForGlobalHashes` (file1.js lines 346-373) -/

/-- The two ways the startup wait can resolve: the live hash table became
non-empty and `verifyHashes` runs, or the 5000 ms timeout elapsed and the
`.catch` handler shows the tamper overlay. -/
inductive WaitOutcome where
  | proceed
  | failClosed
deriving DecidableEq

/-- file1.js lines 346-362 with the default `timeout = 5000` and
`interval = 100`: the `check` closure at its `k`-th run (elapsed time
`k * 100` ms, one run per `setTimeout` round) resolves when the table is
non-empty, rejects when the timeout has elapsed, and otherwise schedules
itself again. -/
def waitForGlobalHashes (nonempty : Nat → Bool) (k : Nat) : WaitOutcome :=
  if nonempty k then .proceed
  else if k * 100 ≥ 5000 then .failClosed
  else waitForGlobalHashes nonempty (k + 1)
termination_by 51 - k
decreasing_by omega

/-! ## Build-time graph construction: `processFile`
(RouterCallsCreator.js lines 506-568)

`processFile` adds the current file to the visited set it received, resolves
the file's router-call and plain-call references in source order (`refs`
abstracts the two regex passes plus the base-name/global-function resolution,
which only ever yields members of `allFiles`), and recurses into every
resolved file that is in the project, different from the current file and not
on the current branch, handing each child a copy of the visited set
(`new Set(visited)`).  Unreadable files (`hasContent = false`) are skipped
with a warning after being marked visited.  The `dependencyMatrix` push is
diagnostics only and is not modelled. -/

/-- The number of project files not yet on the visited branch — the quantity
the copy-on-branch recursion strictly decreases. -/
def unvisitedCount (files visited : List String) : Nat :=
  (files.filter (fun x => decide (x ∉ visited))).length

theorem unvisitedCount_lt {files visited : List String} {d : String}
    (h1 : d ∈ files) (h2 : d ∉ visited) :
    unvisitedCount files (d :: visited) < unvisitedCount files visited := by
  unfold unvisitedCount
  induction files with
  | nil => cases h1
  | cons a l ih =>
    simp only [List.filter_cons]
    by_cases had : a = d
    · subst had
      have hl : ¬ a ∉ a :: visited := by simp
      rw [decide_eq_false hl, decide_eq_true h2]
      have hmono : (List.filter (fun x => decide (x ∉ a :: visited)) l).length ≤
          (List.filter (fun x => decide (x ∉ visited)) l).length := by
        apply List.Sublist.length_le
        apply List.monotone_filter_right
        intro b hb
        simp only [decide_eq_true_eq] at hb ⊢
        exact fun hmem => hb (List.mem_cons_of_mem _ hmem)
      simp only [Bool.false_eq_true, if_false, if_true, List.length_cons]
      omega
    · have hd : d ∈ l := by
        rcases List.mem_cons.mp h1 with h | h
        · exact absurd h.symm had
        · exact h
      have hiff : (a ∉ d :: visited) ↔ (a ∉ visited) := by
        constructor
        · exact fun h hm => h (List.mem_cons_of_mem _ hm)
        · intro h hm
          rcases List.mem_cons.mp hm with hm | hm
          · exact had hm
          · exact h hm
      by_cases hav : a ∉ visited
      · rw [decide_eq_true (hiff.mpr hav), decide_eq_true hav]
        have := ih hd
        simp only [if_true, List.length_cons]
        omega
      · rw [decide_eq_false (fun hc => hav (hiff.mp hc)), decide_eq_false hav]
        have := ih hd
        simp only [Bool.false_eq_true, if_false]
        omega

/-- Rebuild a `DepList` from an ordered association list. -/
def toDepList : List (String × Node) → DepList
  | [] => .nil
  | (p, n) :: rest => .cons p n (toDepList rest)

/-- The `dependencies[dependentFile] = child` object assignments, in loop
order with overwrite-on-revisit (revisits recompute an identical child). -/
def dedupDeps (pairs : List (String × Node)) : List (String × Node) :=
  pairs.foldl (fun m pr => insertOverwrite m pr.1 pr.2) []

mutual
/-- RouterCallsCreator.js lines 511-560, `processFile`. -/
def processFile (files : List String) (refs : String → List String)
    (hasContent : String → Bool) (isRouterFile : String → Bool)
    (file : String) (visited : List String) : Option Node :=
  if file ∈ visited then none
  else
    let visited1 := file :: visited
    if hasContent file then
      some (Node.mk (isRouterFile file)
        (toDepList (dedupDeps (processDeps files refs hasContent isRouterFile
          file (refs file) visited1))))
    else none
termination_by (unvisitedCount files (file :: visited), 1, 0)
/-- The two reference-processing loops of `processFile`, resolved reference
by resolved reference. -/
def processDeps (files : List String) (refs : String → List String)
    (hasContent : String → Bool) (isRouterFile : String → Bool)
    (file : String) : List String → List String → List (String × Node)
  | [], _ => []
  | d :: rest, visited =>
    (if h : d ∈ files ∧ d ≠ file ∧ d ∉ visited then
      match processFile files refs hasContent isRouterFile d visited with
      | some child => [(d, child)]
      | none => []
    else []) ++ processDeps files refs hasContent isRouterFile file rest visited
termination_by ds visited => (unvisitedCount files visited, 0, ds.length)
decreasing_by
  · exact Prod.Lex.left _ _ (unvisitedCount_lt h.1 h.2.2)
  · exact Prod.Lex.right _ (Prod.Lex.right _ (by simp only [List.length_cons]; omega))
end

/-! # Lemmas -/

/-- `splitSep` never returns the empty list, so `.pop()` on its result is
always defined. -/
theorem splitSep_ne_nil (p : Char → Bool) (l : List Char) : splitSep p l ≠ [] := by
  cases l with
  | nil => simp [splitSep]
  | cons c cs =>
    cases h : splitSep p cs with
    | nil => simp [splitSep, h]
    | cons s ss =>
      simp only [splitSep, h]
      split <;> simp

theorem xorBytes_length (a b : List Nat) :
    (xorBytes a b).length = min a.length b.length := by
  simp [xorBytes]

/-- `xorBuffers` succeeds exactly on equal-length buffers. -/
theorem xorBuffers_ok {a b : List Nat} (h : a.length = b.length) :
    xorBuffers a b = .ok (xorBytes a b) := by
  simp [xorBuffers, h]

/-- XORing the zero accumulator returns the other buffer unchanged. -/
theorem xorBytes_zeros32 {m : List Nat} (h : m.length = 32) :
    xorBytes zeros32 m = m := by
  have : ∀ (k : Nat) (l : List Nat), l.length = k →
      xorBytes (List.replicate k 0) l = l := by
    intro k
    induction k with
    | zero => intro l hl; rw [List.length_eq_zero] at hl; simp [hl, xorBytes]
    | succ k ih =>
      intro l hl
      cases l with
      | nil => simp at hl
      | cons x xs =>
        simp only [List.replicate, xorBytes, List.zipWith_cons_cons, Nat.zero_xor]
        rw [List.length_cons] at hl
        exact congrArg (x :: ·) (ih xs (by omega))
  exact this 32 m h

/-- Byte-wise XOR is left-commutative in its folded arguments. -/
theorem xorBytes_lcomm (acc x y : List Nat) :
    xorBytes (xorBytes acc x) y = xorBytes (xorBytes acc y) x := by
  induction acc generalizing x y with
  | nil => simp [xorBytes]
  | cons a as ih =>
    cases x with
    | nil => simp [xorBytes]
    | cons xh xt =>
      cases y with
      | nil => simp [xorBytes]
      | cons yh yt =>
        simp only [xorBytes, List.zipWith_cons_cons]
        refine congrArg₂ (· :: ·) ?_ (ih xt yt)
        rw [Nat.xor_assoc, Nat.xor_assoc, Nat.xor_comm xh yh]

/-- A fold of `xorBuffers` over 32-byte buffers from a 32-byte accumulator
never throws and equals the pure `xorBytes` fold. -/
theorem foldlM_xorBuffers_ok (l : List (List Nat)) :
    ∀ acc : List Nat, acc.length = 32 → (∀ h ∈ l, h.length = 32) →
      l.foldlM xorBuffers acc = Except.ok (l.foldl xorBytes acc) ∧
        (l.foldl xorBytes acc).length = 32 := by
  induction l with
  | nil => intro acc hacc _; exact ⟨rfl, hacc⟩
  | cons x xs ih =>
    intro acc hacc hl
    have hx : x.length = 32 := hl x (List.mem_cons_self _ _)
    have hstep : xorBuffers acc x = .ok (xorBytes acc x) :=
      xorBuffers_ok (by omega)
    have hlen : (xorBytes acc x).length = 32 := by
      rw [xorBytes_length]; omega
    have hrest := ih (xorBytes acc x) hlen
      (fun h hm => hl h (List.mem_cons_of_mem _ hm))
    simp only [List.foldlM_cons, hstep, List.foldl_cons]
    exact ⟨by simpa using hrest.1, hrest.2⟩

/-- Decoding inverts encoding on hex digits. -/
theorem hexCharVal_hexDigitChar : ∀ n < 16, hexCharVal (hexDigitChar n) = some n := by
  decide

/-- Decoding inverts encoding on single bytes. -/
theorem hexPairVal_byteToHexPair {b : Nat} (hb : b < 256) :
    hexPairVal (hexDigitChar (b / 16 % 16)) (hexDigitChar (b % 16)) = b := by
  have h1 : b / 16 < 16 := by omega
  have h1' : b / 16 % 16 = b / 16 := Nat.mod_eq_of_lt h1
  have h2 : b % 16 < 16 := Nat.mod_lt _ (by omega)
  rw [h1']
  unfold hexPairVal
  rw [hexCharVal_hexDigitChar _ h1, hexCharVal_hexDigitChar _ h2]
  show 16 * (b / 16) + b % 16 = b
  omega

theorem hexPairs_flatten_pairs (bs : List Nat) (hb : ∀ b ∈ bs, b < 256) :
    hexPairs ((bs.map byteToHexPair).flatten) = bs := by
  induction bs with
  | nil => rfl
  | cons b rest ih =>
    simp only [List.map_cons, List.flatten_cons]
    show hexPairVal (hexDigitChar (b / 16 % 16)) (hexDigitChar (b % 16)) ::
      hexPairs ((rest.map byteToHexPair).flatten) = b :: rest
    rw [hexPairVal_byteToHexPair (hb b (List.mem_cons_self _ _)),
      ih (fun x hx => hb x (List.mem_cons_of_mem _ hx))]

theorem flatten_pairs_length (bs : List Nat) :
    ((bs.map byteToHexPair).flatten).length = 2 * bs.length := by
  induction bs with
  | nil => rfl
  | cons b rest ih =>
    simp only [List.map_cons, List.flatten_cons, List.length_append, ih,
      byteToHexPair, List.length_cons, List.length_nil]
    omega

/-- `hexStringToUint8Array` inverts `uint8ArrayToHexString` on byte lists. -/
theorem hexString_roundtrip (bs : List Nat) (hb : ∀ b ∈ bs, b < 256) :
    hexStringToUint8Array (uint8ArrayToHexString bs) = .ok bs := by
  unfold hexStringToUint8Array uint8ArrayToHexString
  have hlen : (String.mk ((bs.map byteToHexPair).flatten)).length = 2 * bs.length := by
    show ((bs.map byteToHexPair).flatten).length = 2 * bs.length
    exact flatten_pairs_length bs
  rw [hlen]
  simp only [Nat.mul_mod_right, ne_eq, not_true_eq_false, if_false,
    not_false_eq_true, if_true]
  show Except.ok (hexPairs ((bs.map byteToHexPair).flatten)) = Except.ok bs
  rw [hexPairs_flatten_pairs bs hb]

/-- The byte count of a decoded even-length hex string. -/
theorem hexPairs_length : ∀ l : List Char, (hexPairs l).length = l.length / 2
  | [] => rfl
  | [c] => by
    have h : hexPairs [c] = [] := rfl
    simp [h]
  | c1 :: c2 :: rest => by
    simp only [hexPairs, List.length_cons, hexPairs_length rest]
    omega

/-! # Claim theorems -/

/-- C7.  XOR order independence: folding any finite list of 32-byte hash
buffers into the 32-byte zero accumulator with the byte-wise `xorBuffers`
gives the same result for every permutation of the list, so the key
derivation accumulator does not depend on traversal or visit order. -/
theorem xorFold_perm_invariant (l₁ l₂ : List (List Nat)) (hperm : l₁.Perm l₂)
    (h32 : ∀ h ∈ l₁, h.length = 32) : xorFold l₁ = xorFold l₂ := by
  have h32' : ∀ h ∈ l₂, h.length = 32 := fun h hm => h32 h (hperm.mem_iff.mpr hm)
  have h1 := (foldlM_xorBuffers_ok l₁ zeros32 (by simp [zeros32]) h32).1
  have h2 := (foldlM_xorBuffers_ok l₂ zeros32 (by simp [zeros32]) h32').1
  unfold xorFold
  rw [h1, h2]
  exact congrArg Except.ok
    (hperm.foldl_eq' (fun x _ y _ z => xorBytes_lcomm z x y) zeros32)

/-- `check` resolves from poll `k ≤ 50` exactly when the table becomes
non-empty at some poll between `k` and the last one inside the timeout. -/
theorem waitForGlobalHashes_proceed_iff (ne : Nat → Bool) (k : Nat) (hk : k ≤ 50) :
    waitForGlobalHashes ne k = .proceed ↔ ∃ j, k ≤ j ∧ j ≤ 50 ∧ ne j = true := by
  rw [waitForGlobalHashes]
  by_cases h1 : ne k = true
  · rw [if_pos h1]
    exact iff_of_true rfl ⟨k, Nat.le_refl _, hk, h1⟩
  · rw [if_neg h1]
    by_cases h2 : k * 100 ≥ 5000
    · rw [if_pos h2]
      apply iff_of_false
      · intro h; cases h
      · rintro ⟨j, hj1, hj2, hj3⟩
        have hjk : j = k := by omega
        subst hjk
        exact h1 hj3
    · rw [if_neg h2]
      have hk' : k + 1 ≤ 50 := by omega
      rw [waitForGlobalHashes_proceed_iff ne (k + 1) hk']
      constructor
      · rintro ⟨j, hj1, hj2, hj3⟩
        exact ⟨j, by omega, hj2, hj3⟩
      · rintro ⟨j, hj1, hj2, hj3⟩
        refine ⟨j, ?_, hj2, hj3⟩
        rcases Nat.eq_or_lt_of_le hj1 with rfl | hlt
        · exact absurd hj3 h1
        · omega
termination_by 51 - k
decreasing_by omega

/-- C6.  Fail-closed timeout: with the fixed 5000 ms timeout and 100 ms
interval, the startup wait started at poll 0 resolves to exactly one of two
outcomes — `proceed` (the live table became non-empty at one of the polls
inside the timeout, after which `verifyHashes` runs) or `failClosed` (the
timeout elapsed with the table still empty, after which the catch handler
shows the tamper overlay); there is no third outcome. -/
theorem waitForGlobalHashes_dichotomy (ne : Nat → Bool) :
    (waitForGlobalHashes ne 0 = .proceed ∨ waitForGlobalHashes ne 0 = .failClosed) ∧
    (waitForGlobalHashes ne 0 = .proceed ↔ ∃ j, j ≤ 50 ∧ ne j = true) ∧
    (waitForGlobalHashes ne 0 = .failClosed ↔ ∀ j, j ≤ 50 → ne j = false) := by
  have hiff := waitForGlobalHashes_proceed_iff ne 0 (by omega)
  have hcases : waitForGlobalHashes ne 0 = .proceed ∨
      waitForGlobalHashes ne 0 = .failClosed := by
    cases h : waitForGlobalHashes ne 0
    · exact Or.inl rfl
    · exact Or.inr rfl
  refine ⟨hcases, ?_, ?_⟩
  · rw [hiff]
    exact ⟨fun ⟨j, _, hj2, hj3⟩ => ⟨j, hj2, hj3⟩,
      fun ⟨j, hj2, hj3⟩ => ⟨j, Nat.zero_le _, hj2, hj3⟩⟩
  · constructor
    · intro hfail j hj
      by_contra hne
      have : waitForGlobalHashes ne 0 = .proceed :=
        hiff.mpr ⟨j, Nat.zero_le _, hj, by simpa using hne⟩
      rw [hfail] at this
      cases this
    · intro hall
      rcases hcases with hp | hf
      · rcases hiff.mp hp with ⟨j, _, hj2, hj3⟩
        rw [hall j hj2] at hj3
        cases hj3
      · exact hf

/-- C3.  Static descriptor parsing: with no trailing dynamic arguments,
`"file3-funct1-number,string-7,hello"` decodes to the argument list
`[7, "hello"]`, `"file3-funct1-null-null"` decodes to the empty argument
list, and every descriptor whose dash-split has other than exactly 4 fields
is rejected with no function dispatched. -/
theorem parseAndCall_static_descriptors :
    (parseAndCall "file3-funct1-number,string-7,hello" "file2" [] (fun _ => true)
      = some ("funct1", [JSVal.num 7, JSVal.str "hello"])) ∧
    (parseAndCall "file3-funct1-null-null" "file2" [] (fun _ => true)
      = some ("funct1", [])) ∧
    (∀ (d caller : String) (registry : String → Bool),
      (jsSplit '-' d).length ≠ 4 → parseAndCall d caller [] registry = none) := by
  refine ⟨rfl, rfl, ?_⟩
  intro d caller registry hlen
  rcases hp : jsSplit '-' d with _ | ⟨a, _ | ⟨b, _ | ⟨c, _ | ⟨e, _ | ⟨f, rest⟩⟩⟩⟩⟩
  · simp [parseAndCall, hp]
  · simp [parseAndCall, hp]
  · simp [parseAndCall, hp]
  · simp [parseAndCall, hp]
  · exact absurd (by rw [hp]; rfl) hlen
  · simp [parseAndCall, hp]

/-- C3 witness: the rejection branch of the theorem applied to a concrete
2-field descriptor. -/
theorem parseAndCall_static_descriptors_witness :
    (jsSplit '-' "a-b").length ≠ 4 ∧
    parseAndCall "a-b" "file2" [] (fun _ => true) = none :=
  ⟨by decide,
    parseAndCall_static_descriptors.2.2 "a-b" "file2" (fun _ => true) (by decide)⟩

/-- C4 (code bug).  Dynamic-argument dispatch: `routerForwardCall` passes its
trailing argument array to `parseAndCall` as a single un-spread value
(`parseAndCall(plaintext,callee,args)`, file1.js line 147), so for the
supplied argument list `[15]` the target is invoked with the one-element
argument list `[[15]]` — the array itself — and not with the supplied
arguments in their original positions as the claim (and the README's
replacement contract) requires. -/
theorem routerParsePhase_wraps_dynamic_args :
    routerParsePhase "unfilejsqualunque-printing" "file2" [JSVal.num 15]
        (fun _ => true)
      = some ("printing", [JSVal.arr [JSVal.num 15]]) ∧
    some ("printing", [JSVal.arr [JSVal.num 15]]) ≠
      some ("printing", ([JSVal.num 15] : List JSVal)) := by
  refine ⟨rfl, ?_⟩
  intro h
  simp only [Option.some.injEq, Prod.mk.injEq, List.cons.injEq] at h
  exact JSVal.noConfusion h.2.1

/-- Splitting depends only on the separator test's values on the list. -/
theorem splitSep_congr (p q : Char → Bool) :
    ∀ l : List Char, (∀ c ∈ l, p c = q c) → splitSep p l = splitSep q l
  | [], _ => rfl
  | c :: cs, h => by
    have ht := splitSep_congr p q cs (fun x hx => h x (List.mem_cons_of_mem _ hx))
    have hc := h c (List.mem_cons_self _ _)
    simp only [splitSep, ht, hc]

/-- A separator-free list is one single segment. -/
theorem splitSep_eq_single (p : Char → Bool) :
    ∀ l : List Char, (∀ c ∈ l, p c = false) → splitSep p l = [l]
  | [], _ => rfl
  | c :: cs, h => by
    have ht := splitSep_eq_single p cs (fun x hx => h x (List.mem_cons_of_mem _ hx))
    have hc := h c (List.mem_cons_self _ _)
    simp only [splitSep, ht, hc, Bool.false_eq_true, if_false]

/-- A list containing a separator splits into at least two segments. -/
theorem splitSep_two_segments (p : Char → Bool) {c : Char} (hc : p c = true) :
    ∀ l : List Char, c ∈ l → ∃ s ss, splitSep p l = s :: ss ∧ ss ≠ []
  | a :: l', hmem => by
    rcases List.mem_cons.mp hmem with rfl | hl'
    · cases hss : splitSep p l' with
      | nil => exact absurd hss (splitSep_ne_nil p l')
      | cons s ss => exact ⟨[], s :: ss, by simp only [splitSep, hss, hc, if_true], by simp⟩
    · obtain ⟨s, ss, hsp, hne⟩ := splitSep_two_segments p hc l' hl'
      by_cases hpa : p a = true
      · exact ⟨[], s :: ss, by simp only [splitSep, hsp, hpa, if_true], by simp⟩
      · refine ⟨a :: s, ss, ?_, hne⟩
        simp only [splitSep, hsp, hpa, Bool.false_eq_true, if_false]

/-- The last split segment after a separator is the last segment of the part
after the separator. -/
theorem jsLast_splitSep_append (p : Char → Bool) {c : Char} (hc : p c = true)
    (l2 : List Char) :
    ∀ l1 : List Char, jsLast (splitSep p (l1 ++ c :: l2)) = jsLast (splitSep p l2)
  | [] => by
    cases hss : splitSep p l2 with
    | nil => exact absurd hss (splitSep_ne_nil p l2)
    | cons s ss =>
      simp only [List.nil_append, splitSep, hss, hc, if_true, jsLast,
        List.getLastD_cons]
  | a :: l1 => by
    have ih := jsLast_splitSep_append p hc l2 l1
    obtain ⟨s, ss, hsp, hne⟩ :=
      splitSep_two_segments p hc (l1 ++ c :: l2) (by simp)
    rw [List.cons_append]
    by_cases hpa : p a = true
    · simp only [splitSep, hsp, hpa, if_true]
      rw [hsp] at ih
      simpa only [jsLast, List.getLastD_cons] using ih
    · simp only [splitSep, hsp, hpa, Bool.false_eq_true, if_false]
      rw [hsp] at ih
      cases ss with
      | nil => exact absurd rfl hne
      | cons s1 ss1 =>
        simpa only [jsLast, List.getLastD_cons] using ih

/-- C8 counterexample (claim as stated is false): for the forward-slash path
`"recompiled/file1.js"` the tamper verifier's normalization keeps the whole
path as its key, while the bare file name — which the router runtime's
normalization produces — is `"file1.js"`. -/
theorem verifierKey_keeps_forward_slash_path :
    verifierKeyOf "recompiled/file1.js" = "recompiled/file1.js" ∧
    routerFileNameOf "recompiled/file1.js" = "file1.js" ∧
    verifierKeyOf "recompiled/file1.js" ≠
      routerFileNameOf "recompiled/file1.js" := by
  refine ⟨rfl, rfl, ?_⟩
  decide

/-- C8 (amended).  Bare-name normalization: the router runtime's lookup key
is always the last path segment with respect to both separator styles
(`dir ++ sep ++ name ↦ name`), but the tamper verifier splits on backslashes
only, so its key agrees with the router's bare-name normalization exactly on
paths free of forward slashes (such as the build-time Windows paths). -/
theorem bare_name_normalization (pth : String)
    (hnos : ∀ ch ∈ pth.toList, ch ≠ '/') :
    verifierKeyOf pth = routerFileNameOf pth ∧
    (∀ (dir name : String) (sep : Char), isPathSep sep = true →
      (∀ ch ∈ name.toList, isPathSep ch = false) →
      routerFileNameOf (dir ++ String.mk [sep] ++ name) = name) := by
  constructor
  · unfold verifierKeyOf routerFileNameOf
    have hcong : ∀ ch ∈ pth.toList, (decide (ch = '\\')) = isPathSep ch := by
      intro ch hch
      have hne := hnos ch hch
      simp only [isPathSep]
      cases hd : decide (ch = '\\') with
      | false => rw [decide_eq_false hne]; rfl
      | true => rfl
    rw [splitSep_congr _ _ _ hcong]
  · intro dir name sep hsep hclean
    unfold routerFileNameOf
    have hdata : (dir ++ String.mk [sep] ++ name).toList
        = dir.toList ++ sep :: name.toList := by
      show (dir ++ String.mk [sep] ++ name).data = dir.data ++ sep :: name.data
      rw [String.data_append, String.data_append]
      simp
    rw [hdata, jsLast_splitSep_append isPathSep hsep name.toList dir.toList,
      splitSep_eq_single isPathSep name.toList hclean]
    rfl

/-- C8 witness: the amended theorem applied to a backslash Windows path. -/
theorem bare_name_normalization_witness :
    (∀ ch ∈ ("C:\\dir\\file1.js" : String).toList, ch ≠ '/') ∧
    verifierKeyOf "C:\\dir\\file1.js" = routerFileNameOf "C:\\dir\\file1.js" :=
  ⟨by decide, (bare_name_normalization "C:\\dir\\file1.js" (by decide)).1⟩

/-- The first hit of `find?` splits the list into clean entries, the hit, and
a remainder. -/
theorem find?_some_split {α : Type} {p : α → Bool} :
    ∀ {l : List α} {x : α}, l.find? p = some x →
      ∃ l₁ l₂, l = l₁ ++ x :: l₂ ∧ (∀ q ∈ l₁, p q = false) ∧ p x = true := by
  intro l
  induction l with
  | nil => intro x h; cases h
  | cons a l' ih =>
    intro x h
    by_cases hpa : p a = true
    · rw [List.find?_cons_of_pos _ hpa] at h
      cases h
      exact ⟨[], l', by simp, by simp, hpa⟩
    · rw [List.find?_cons_of_neg _ (by simpa using hpa)] at h
      obtain ⟨l₁, l₂, hsplit, hclean, hx⟩ := ih h
      exact ⟨a :: l₁, l₂, by rw [hsplit]; rfl,
        fun q hq => by
          rcases List.mem_cons.mp hq with rfl | hq'
          · simpa using hpa
          · exact hclean q hq', hx⟩

/-- An entry passes the comparison exactly when its precomputed hash is
non-empty and the live table carries the identical hash. -/
theorem entryMismatch_false_iff (live : String → Option String) (p : String × String) :
    entryMismatch live p = false ↔ p.2 ≠ "" ∧ live p.1 = some p.2 := by
  simp only [entryMismatch, Bool.or_eq_false_iff, decide_eq_false_iff_not,
    not_not, ne_eq]

/-- C2 counterexample (claim as stated is false): for the embedded table
`[("f", "")]` and a live table carrying the identical hash `""` for `"f"`,
every precomputed entry matches its live hash, yet `verifyHashes` still
triggers the overlay, because `!expectedHash` also fires on an empty (falsy)
precomputed hash. -/
theorem verifyHashes_overlay_despite_match :
    verifyHashes [("f", "")] (fun s => if s = "f" then some "" else none)
      = some "f" ∧
    (fun s : String => if s = "f" then some "" else none) "f" = some "" :=
  ⟨rfl, rfl⟩

/-- C2 (amended).  Tamper verifier: `verifyHashes` compares the entries of
the bare-name simplified precomputed table in order; it passes (logging
success, inserting no overlay) exactly when every entry has a non-empty
precomputed hash equal to its live hash; otherwise it inserts the overlay at
the first entry whose live hash is missing or different or whose precomputed
hash is empty (falsy), comparing no later entry. -/
theorem verifyHashes_first_mismatch (precomputed : List (String × String))
    (live : String → Option String) :
    (verifyHashes precomputed live = none ↔
      ∀ p ∈ simplifyPrecomputed precomputed, p.2 ≠ "" ∧ live p.1 = some p.2) ∧
    (∀ f, verifyHashes precomputed live = some f →
      ∃ e l₁ l₂, simplifyPrecomputed precomputed = l₁ ++ (f, e) :: l₂ ∧
        (∀ q ∈ l₁, q.2 ≠ "" ∧ live q.1 = some q.2) ∧
        (e = "" ∨ live f ≠ some e)) := by
  constructor
  · unfold verifyHashes
    rw [Option.map_eq_none']
    rw [List.find?_eq_none]
    constructor
    · intro h p hp
      exact (entryMismatch_false_iff live p).mp (by simpa using h p hp)
    · intro h p hp
      have := (entryMismatch_false_iff live p).mpr (h p hp)
      simp [this]
  · intro f hf
    unfold verifyHashes at hf
    rw [Option.map_eq_some'] at hf
    obtain ⟨⟨a, b⟩, hfind, hfst⟩ := hf
    have ha : a = f := hfst
    subst ha
    obtain ⟨l₁, l₂, hsplit, hclean, hx⟩ := find?_some_split hfind
    refine ⟨b, l₁, l₂, hsplit, ?_, ?_⟩
    · exact fun q hq => (entryMismatch_false_iff live q).mp (hclean q hq)
    · simpa [entryMismatch, Decidable.or_iff_not_imp_left] using hx

/-- When no branch file has a live hash, the run-time fold returns the zero
accumulator untouched. -/
theorem foldlM_branchHashStep_none (live : String → Option String) :
    ∀ (branch : List String) (acc : List Nat),
      (∀ b ∈ branch, live (routerFileNameOf b) = none) →
      branch.foldlM (branchHashStep live) acc = .ok acc := by
  intro branch
  induction branch with
  | nil => intro acc _; rfl
  | cons b rest ih =>
    intro acc hn
    have hstep : branchHashStep live acc b = pure acc := by
      unfold branchHashStep
      rw [hn b (List.mem_cons_self _ _)]
    rw [List.foldlM_cons, hstep]
    simpa using ih acc (fun x hx => hn x (List.mem_cons_of_mem _ hx))

/-- The character count of a string is the length of its character list. -/
theorem toList_length (s : String) : s.toList.length = s.length := rfl

/-- When every live hash is a 64-character hex string, the run-time fold
never throws and yields a 32-byte accumulator. -/
theorem foldlM_branchHashStep_ok (live : String → Option String)
    (hlive : ∀ f h, live f = some h → h.length = 64) :
    ∀ (branch : List String) (acc : List Nat), acc.length = 32 →
      ∃ x, branch.foldlM (branchHashStep live) acc = .ok x ∧ x.length = 32 := by
  intro branch
  induction branch with
  | nil => intro acc hacc; exact ⟨acc, rfl, hacc⟩
  | cons b rest ih =>
    intro acc hacc
    rw [List.foldlM_cons]
    cases hlb : live (routerFileNameOf b) with
    | none =>
      have hstep : branchHashStep live acc b = pure acc := by
        unfold branchHashStep
        rw [hlb]
      rw [hstep]
      simpa using ih acc hacc
    | some hh =>
      have hlen : hh.length = 64 := hlive _ _ hlb
      have hhex : hexStringToUint8Array hh = .ok (hexPairs hh.toList) := by
        unfold hexStringToUint8Array
        rw [if_neg (by omega)]
      have hblen : (hexPairs hh.toList).length = 32 := by
        rw [hexPairs_length, toList_length, hlen]
      have hstep : branchHashStep live acc b
          = .ok (xorBytes acc (hexPairs hh.toList)) := by
        unfold branchHashStep
        rw [hlb]
        show (match hexStringToUint8Array hh with
          | Except.error e => Except.error e
          | Except.ok hb => xorBuffers acc hb) = _
        rw [hhex]
        show xorBuffers acc (hexPairs hh.toList) = _
        exact xorBuffers_ok (by omega)
      have hxlen : (xorBytes acc (hexPairs hh.toList)).length = 32 := by
        rw [xorBytes_length]; omega
      rw [hstep]
      simpa using ih _ hxlen

/-- C10.  The `if (!xorResult)` guard of `routerForwardCall` can never fire —
`xorResult` is always a (truthy) `Uint8Array` object — so the `noHashes`
outcome is unreachable for every input; and when the live hash table carries
none of the branch files, the reconstructed key is exactly the decoded
published mask and the pipeline proceeds to decryption. -/
theorem routerReconstructKey_guard_dead (tree : DependencyTree) (fileKey : String)
    (live : String → Option String) (maskHex : String) :
    routerReconstructKey tree fileKey live maskHex
        ≠ Except.ok RouterSyncResult.noHashes ∧
    (∀ (rootPath : String) (n : Node) (mb : List Nat),
      findRoot tree fileKey = some (rootPath, n) →
      n.routerDependant = true →
      (collectDepsN n [] []).1 ≠ [] →
      (∀ b ∈ (collectDepsN n [] []).1, live (routerFileNameOf b) = none) →
      hexStringToUint8Array maskHex = Except.ok mb →
      mb.length = 32 →
      routerReconstructKey tree fileKey live maskHex
        = Except.ok (RouterSyncResult.key mb)) := by
  constructor
  · unfold routerReconstructKey
    cases hb : branchFilesOf tree fileKey with
    | error e => simp
    | ok branch =>
      cases branch with
      | nil => simp
      | cons b bs =>
        cases hf : foldBranchHashes (b :: bs) live with
        | error e => simp [hf]
        | ok x =>
          cases hm : hexStringToUint8Array maskHex with
          | error e => simp [hf, uint8ArrayFalsy]
          | ok mb =>
            cases hx : xorBuffers x mb with
            | error e => simp [hf, hx, uint8ArrayFalsy]
            | ok k => simp [hf, hx, uint8ArrayFalsy]
  · intro rootPath n mb hfind hrouter hne hnone hmb hmblen
    have hfold : foldBranchHashes (collectDepsN n [] []).1 live = .ok zeros32 :=
      foldlM_branchHashStep_none live _ zeros32 hnone
    have hbf : branchFilesOf tree fileKey = .ok ((collectDepsN n [] []).1) := by
      unfold branchFilesOf
      rw [hfind]
      simp [hrouter]
    have hbe : (collectDepsN n [] []).1.isEmpty = false := by
      cases hcl : (collectDepsN n [] []).1 with
      | nil => exact absurd hcl hne
      | cons _ _ => rfl
    have hxors : xorBuffers zeros32 mb = .ok mb := by
      rw [xorBuffers_ok (by simp [zeros32, hmblen]), xorBytes_zeros32 hmblen]
    simp only [routerReconstructKey, hbf, hbe, Bool.false_eq_true, if_false,
      hfold, uint8ArrayFalsy, hmb, hxors]

/-- C10 witness: the theorem applied to a one-dependency tree with an empty
live table and the all-zero mask. -/
theorem routerReconstructKey_guard_dead_witness :
    routerReconstructKey
        [("R.js", Node.mk true (DepList.cons "Y.js" (Node.mk false DepList.nil)
          DepList.nil))] "R.js" (fun _ => none)
        (uint8ArrayToHexString zeros32)
      = Except.ok (RouterSyncResult.key zeros32) :=
  (routerReconstructKey_guard_dead _ "R.js" _ _).2 "R.js"
    (Node.mk true (DepList.cons "Y.js" (Node.mk false DepList.nil) DepList.nil))
    zeros32 rfl rfl (by decide) (fun b _ => rfl) rfl (by decide)

/-- The synchronous key-reconstruction pipeline never throws when every live
hash is 64 hex characters, the mask hex is 64 characters, and the matched
dependency-tree root (if any) is router-dependent. -/
theorem routerReconstructKey_no_throw (tree : DependencyTree) (fileKey : String)
    (live : String → Option String) (maskHex : String)
    (hlive : ∀ f h, live f = some h → h.length = 64)
    (hmask : maskHex.length = 64)
    (hroot : ∀ rootPath n, findRoot tree fileKey = some (rootPath, n) →
      n.routerDependant = true) :
    ∃ r, routerReconstructKey tree fileKey live maskHex = Except.ok r := by
  have hbf : ∃ branch, branchFilesOf tree fileKey = .ok branch := by
    unfold branchFilesOf
    cases hfind : findRoot tree fileKey with
    | none => exact ⟨[], rfl⟩
    | some rn =>
      obtain ⟨rp, n⟩ := rn
      have hr := hroot rp n (by rw [hfind])
      exact ⟨(collectDepsN n [] []).1, by simp [hr]⟩
  obtain ⟨branch, hbranch⟩ := hbf
  cases branch with
  | nil => exact ⟨.noBranch, by simp [routerReconstructKey, hbranch]⟩
  | cons b bs =>
    obtain ⟨x, hfold, hxlen⟩ :=
      foldlM_branchHashStep_ok live hlive (b :: bs) zeros32 (by simp [zeros32])
    have hfold' : foldBranchHashes (b :: bs) live = .ok x := hfold
    have hhex : hexStringToUint8Array maskHex = .ok (hexPairs maskHex.toList) := by
      unfold hexStringToUint8Array
      rw [if_neg (by omega)]
    have hmlen : (hexPairs maskHex.toList).length = 32 := by
      rw [hexPairs_length, toList_length, hmask]
    have hxors : xorBuffers x (hexPairs maskHex.toList)
        = .ok (xorBytes x (hexPairs maskHex.toList)) :=
      xorBuffers_ok (by omega)
    exact ⟨.key (xorBytes x (hexPairs maskHex.toList)),
      by simp only [routerReconstructKey, hbranch, List.isEmpty_cons,
        Bool.false_eq_true, if_false, hfold', uint8ArrayFalsy, hhex, hxors]⟩

/-- C5 counterexample (claim as stated is false): with the actual code, a
live hash table entry that is not valid hex — here the odd-length string
`"abc"` for the branch file `"Y.js"` — makes the synchronous part of
`routerForwardCall` throw `"Invalid hexString"` out of
`hexStringToUint8Array` to the caller instead of logging and returning. -/
theorem routerForwardCallSync_throws_on_malformed_live_hash :
    routerForwardCallSync
        [("F.js", Node.mk true (DepList.cons "Y.js" (Node.mk false DepList.nil)
          DepList.nil))]
        [("F.js", MappingEntry.mk (some "aa") [])]
        (fun nm => if nm = "Y.js" then some "abc" else none) "F"
      = Except.error "Invalid hexString" := rfl

/-- C5 (amended).  Run-time silent safety: provided every published live hash
is a 64-character hex string, every embedded mask is 64 hex characters, and
the first dependency-tree root matching the file key is router-dependent (all
true of the shipped constants and of the hashes the extension publishes),
`routerForwardCall`\'s synchronous phase never propagates an exception: a
missing IV-mapping entry, missing mask or missing dependency branch returns a
logged early exit, and in the promise chain a missing IV or a decryption
failure is caught and dispatches nothing. -/
theorem routerForwardCallSync_silent_safe (tree : DependencyTree)
    (ivsMapping : List (String × MappingEntry)) (live : String → Option String)
    (callee : String)
    (hlive : ∀ f h, live f = some h → h.length = 64)
    (hmask : ∀ p ∈ ivsMapping, ∀ m, p.2.mask = some m → m.length = 64)
    (hroot : ∀ rootPath n,
      findRoot tree (if jsEndsWith callee ".js" then callee else callee ++ ".js")
        = some (rootPath, n) → n.routerDependant = true) :
    (∃ r, routerForwardCallSync tree ivsMapping live callee = Except.ok r) ∧
    (∀ (entry : MappingEntry) (cs : String)
      (decrypt : String → String → Option String) (rArgs : List JSVal)
      (registry : String → Bool),
      routerIvLookup entry cs = none →
      routerAsyncPhase entry cs callee decrypt rArgs registry = none) ∧
    (∀ (entry : MappingEntry) (cs iv : String)
      (decrypt : String → String → Option String) (rArgs : List JSVal)
      (registry : String → Bool),
      routerIvLookup entry cs = some iv → decrypt cs iv = none →
      routerAsyncPhase entry cs callee decrypt rArgs registry = none) := by
  refine ⟨?_, ?_, ?_⟩
  · cases hfind : (ivsMapping.find? (fun e =>
        e.1 = (if jsEndsWith callee ".js" then callee else callee ++ ".js"))) with
    | none => exact ⟨.noMapping, by simp [routerForwardCallSync, hfind]⟩
    | some pe =>
      cases hm : pe.2.mask with
      | none => exact ⟨.noMask, by simp [routerForwardCallSync, hfind, hm]⟩
      | some m =>
        by_cases hme : m = ""
        · exact ⟨.noMask, by simp [routerForwardCallSync, hfind, hm, hme]⟩
        · have hrk := routerReconstructKey_no_throw tree _ live m hlive
            (hmask pe (List.mem_of_find?_eq_some hfind) m hm) hroot
          obtain ⟨r, hr⟩ := hrk
          exact ⟨r, by simp [routerForwardCallSync, hfind, hm, hme, hr]⟩
  · intro entry cs decrypt rArgs registry hiv
    unfold routerAsyncPhase
    rw [hiv]
  · intro entry cs iv decrypt rArgs registry hiv hdec
    unfold routerAsyncPhase
    rw [hiv]
    simp [hdec]

/-- C5 witness: the amended theorem applied to empty embedded constants and
an empty live table. -/
theorem routerForwardCallSync_silent_safe_witness :
    ∃ r, routerForwardCallSync [] [] (fun _ => none) "x" = Except.ok r :=
  (routerForwardCallSync_silent_safe [] [] (fun _ => none) "x"
    (fun _ h hh => nomatch hh)
    (fun p hp => absurd hp (List.not_mem_nil p))
    (fun _ _ hh => nomatch hh)).1

/-! Non-router paths are a subset of all paths of a dependency mapping. -/
mutual
theorem nonRouterPathsD_subset :
    ∀ d : DepList, ∀ p ∈ nonRouterPathsD d, p ∈ allPathsD d
  | .nil, p, hp => by simp [nonRouterPathsD] at hp
  | .cons q n rest, p, hp => by
    simp only [nonRouterPathsD, List.mem_append] at hp
    simp only [allPathsD, List.mem_cons, List.mem_append]
    rcases hp with (hp | hp) | hp
    · left
      rcases hn : n.routerDependant with _ | _ <;> rw [hn] at hp <;> simp at hp
      exact hp.symm ▸ rfl
    · exact Or.inr (Or.inl (nonRouterPathsN_subset n p hp))
    · exact Or.inr (Or.inr (nonRouterPathsD_subset rest p hp))
theorem nonRouterPathsN_subset :
    ∀ n : Node, ∀ p ∈ nonRouterPathsN n, p ∈ allPathsN n
  | .mk r ds, p, hp => nonRouterPathsD_subset ds p hp
end

/-! The run-time branch collection (`collectDeps`) on a duplicate-free
subtree: it appends exactly the non-router-dependent paths in preorder, and
records them in the visited set. -/
mutual
theorem collectDepsD_clean :
    ∀ (d : DepList) (branch vis : List String),
      (allPathsD d).Nodup → (∀ p ∈ allPathsD d, p ∉ vis) →
      collectDepsD d branch vis
        = (branch ++ nonRouterPathsD d, (nonRouterPathsD d).reverse ++ vis)
  | .nil, branch, vis, _, _ => by simp [collectDepsD, nonRouterPathsD]
  | .cons p n rest, branch, vis, hnd, hdisj => by
    have hp : p ∉ vis := hdisj p (by simp [allPathsD])
    have hnd0 : (p :: (allPathsN n ++ allPathsD rest)).Nodup := hnd
    have hnd' := List.nodup_cons.mp hnd0
    have hndN : (allPathsN n).Nodup := (List.nodup_append.mp hnd'.2).1
    have hndD : (allPathsD rest).Nodup := (List.nodup_append.mp hnd'.2).2.1
    have hdisjND : (allPathsN n).Disjoint (allPathsD rest) :=
      (List.nodup_append.mp hnd'.2).2.2
    have hpN : p ∉ allPathsN n := fun hc => hnd'.1 (List.mem_append_left _ hc)
    have hpD : p ∉ allPathsD rest := fun hc => hnd'.1 (List.mem_append_right _ hc)
    have hdisjN : ∀ q ∈ allPathsN n, q ∉ p :: vis := by
      intro q hq
      simp only [List.mem_cons, not_or]
      exact ⟨fun hqp => hpN (hqp ▸ hq),
        hdisj q (by simp [allPathsD, List.mem_append, hq])⟩
    have hdisjD : ∀ newVis : List String,
        (∀ q, q ∈ newVis → q = p ∨ q ∈ nonRouterPathsN n ∨ q ∈ vis) →
        ∀ q ∈ allPathsD rest, q ∉ newVis := by
      intro newVis hnew q hq hc
      rcases hnew q hc with rfl | hc' | hc'
      · exact hpD hq
      · exact hdisjND (nonRouterPathsN_subset n q hc') hq
      · exact hdisj q (by simp [allPathsD, List.mem_append, hq]) hc'
    cases hr : n.routerDependant with
    | false =>
      have hstep : (if n.routerDependant = false ∧ p ∉ vis
          then (branch ++ [p], p :: vis) else (branch, vis))
            = (branch ++ [p], p :: vis) := if_pos ⟨hr, hp⟩
      have hsub := collectDepsN_clean n (branch ++ [p]) (p :: vis) hndN hdisjN
      have hrest := collectDepsD_clean rest (branch ++ [p] ++ nonRouterPathsN n)
        ((nonRouterPathsN n).reverse ++ p :: vis) hndD
        (hdisjD _ (by
          intro q hq
          simp only [List.mem_append, List.mem_reverse, List.mem_cons] at hq
          rcases hq with hq | hq | hq
          · exact Or.inr (Or.inl hq)
          · exact Or.inl hq
          · exact Or.inr (Or.inr hq)))
      simp only [List.append_assoc, List.singleton_append] at hsub hrest
      simp only [collectDepsD]
      rw [hstep]
      simp only [hsub, hrest, nonRouterPathsD, hr,
        Bool.false_eq_true, if_false, List.reverse_append, List.reverse_cons,
        List.reverse_nil, List.nil_append, List.append_assoc, List.cons_append,
        List.singleton_append]
    | true =>
      have hstep : (if n.routerDependant = false ∧ p ∉ vis
          then (branch ++ [p], p :: vis) else (branch, vis))
            = (branch, vis) := if_neg (by simp [hr])
      have hsub := collectDepsN_clean n branch vis hndN
        (fun q hq => hdisj q (by simp [allPathsD, List.mem_append, hq]))
      have hrest := collectDepsD_clean rest (branch ++ nonRouterPathsN n)
        ((nonRouterPathsN n).reverse ++ vis) hndD
        (hdisjD _ (by
          intro q hq
          simp only [List.mem_append, List.mem_reverse] at hq
          rcases hq with hq | hq
          · exact Or.inr (Or.inl hq)
          · exact Or.inr (Or.inr hq)))
      simp only [collectDepsD]
      rw [hstep]
      simp only [hsub, hrest, nonRouterPathsD, hr,
        if_true, List.reverse_append, List.reverse_cons, List.reverse_nil,
        List.nil_append, List.append_assoc, List.cons_append,
        List.singleton_append]
theorem collectDepsN_clean :
    ∀ (n : Node) (branch vis : List String),
      (allPathsN n).Nodup → (∀ p ∈ allPathsN n, p ∉ vis) →
      collectDepsN n branch vis
        = (branch ++ nonRouterPathsN n, (nonRouterPathsN n).reverse ++ vis)
  | .mk r ds, branch, vis, hnd, hdisj =>
    collectDepsD_clean ds branch vis hnd hdisj
end

/-! The build-time hash collection (`collectHashesFromDependencies`) on a
duplicate-free subtree: it collects, in preorder, one entry per
non-router-dependent file with truthy content — the file's hex digest — and
records every path in the visited set. -/
mutual
theorem collectHashesD_clean (fc : String → Option String) (sha : String → String) :
    ∀ (d : DepList) (vis : List String),
      (allPathsD d).Nodup → (∀ p ∈ allPathsD d, p ∉ vis) →
      collectHashesD fc sha d vis
        = ((nonRouterPathsD d).filterMap (collectedEntry fc sha),
            (allPathsD d).reverse ++ vis)
  | .nil, vis, _, _ => by simp [collectHashesD, nonRouterPathsD, allPathsD]
  | .cons p n rest, vis, hnd, hdisj => by
    have hp : p ∉ vis := hdisj p (by simp [allPathsD])
    have hnd0 : (p :: (allPathsN n ++ allPathsD rest)).Nodup := hnd
    have hnd' := List.nodup_cons.mp hnd0
    have hndN : (allPathsN n).Nodup := (List.nodup_append.mp hnd'.2).1
    have hndD : (allPathsD rest).Nodup := (List.nodup_append.mp hnd'.2).2.1
    have hdisjND : (allPathsN n).Disjoint (allPathsD rest) :=
      (List.nodup_append.mp hnd'.2).2.2
    have hpN : p ∉ allPathsN n := fun hc => hnd'.1 (List.mem_append_left _ hc)
    have hpD : p ∉ allPathsD rest := fun hc => hnd'.1 (List.mem_append_right _ hc)
    have hdisjN : ∀ q ∈ allPathsN n, q ∉ p :: vis := by
      intro q hq
      simp only [List.mem_cons, not_or]
      exact ⟨fun hqp => hpN (hqp ▸ hq),
        hdisj q (by simp [allPathsD, List.mem_append, hq])⟩
    have hsub := collectHashesN_clean fc sha n (p :: vis) hndN hdisjN
    have hrest := collectHashesD_clean fc sha rest ((allPathsN n).reverse ++ p :: vis)
      hndD (by
        intro q hq
        simp only [List.mem_append, List.mem_reverse, List.mem_cons, not_or]
        exact ⟨fun hc => hdisjND hc hq, fun hqp => hpD (hqp ▸ hq),
          hdisj q (by simp [allPathsD, List.mem_append, hq])⟩)
    have hown : (if n.routerDependant then []
        else match fc p with
          | some c => if c = "" then [] else [(p, sha c)]
          | none => ([] : List (String × String)))
        = List.filterMap (collectedEntry fc sha)
            (if n.routerDependant then [] else [p]) := by
      cases n.routerDependant with
      | true => simp
      | false =>
        simp only [Bool.false_eq_true, if_false, List.filterMap_cons,
          List.filterMap_nil]
        unfold collectedEntry
        cases fc p with
        | none => simp
        | some c =>
          by_cases hc : c = "" <;> simp [hc]
    simp only [collectHashesD]
    rw [if_neg hp]
    simp only [hsub, hrest, hown, nonRouterPathsD, allPathsD,
      List.filterMap_append, List.reverse_cons, List.reverse_append,
      List.append_assoc, List.cons_append, List.nil_append,
      List.singleton_append]
theorem collectHashesN_clean (fc : String → Option String) (sha : String → String) :
    ∀ (n : Node) (vis : List String),
      (allPathsN n).Nodup → (∀ p ∈ allPathsN n, p ∉ vis) →
      collectHashesN fc sha n vis
        = ((nonRouterPathsN n).filterMap (collectedEntry fc sha),
            (allPathsN n).reverse ++ vis)
  | .mk r ds, vis, hnd, hdisj => collectHashesD_clean fc sha ds vis hnd hdisj
end

/-- On a branch list whose files all have recorded non-empty content hashed
consistently with the live table, the build-time fold over the collected
digests and the run-time fold over the live hashes compute the same 32-byte
accumulator, and neither throws. -/
theorem build_run_fold_eq (fc : String → Option String) (sha : String → String)
    (live : String → Option String) :
    ∀ (l : List String),
      (∀ p ∈ l, ∃ c, fc p = some c ∧ c ≠ "" ∧
        live (routerFileNameOf p) = some (sha c) ∧ (sha c).length = 64) →
      ∀ acc : List Nat, acc.length = 32 →
      ∃ x, (l.filterMap (collectedEntry fc sha)).foldlM collectedHashStep acc
            = .ok x ∧
        l.foldlM (branchHashStep live) acc = .ok x ∧ x.length = 32 := by
  intro l
  induction l with
  | nil => intro _ acc hacc; exact ⟨acc, rfl, rfl, hacc⟩
  | cons p rest ih =>
    intro hcons acc hacc
    obtain ⟨c, hfc, hcne, hlive, hlen⟩ := hcons p (List.mem_cons_self _ _)
    have hentry : collectedEntry fc sha p = some (p, sha c) := by
      unfold collectedEntry
      rw [hfc]
      simp [hcne]
    have hhex : hexStringToUint8Array (sha c) = .ok (hexPairs (sha c).toList) := by
      unfold hexStringToUint8Array
      rw [if_neg (by omega)]
    have hblen : (hexPairs (sha c).toList).length = 32 := by
      rw [hexPairs_length, toList_length, hlen]
    have hbstep : collectedHashStep acc (p, sha c)
        = .ok (xorBytes acc (hexPairs (sha c).toList)) := by
      unfold collectedHashStep
      rw [hhex]
      show xorBuffers acc (hexPairs (sha c).toList) = _
      exact xorBuffers_ok (by omega)
    have hrstep : branchHashStep live acc p
        = .ok (xorBytes acc (hexPairs (sha c).toList)) := by
      unfold branchHashStep
      rw [hlive]
      show (match hexStringToUint8Array (sha c) with
        | Except.error e => Except.error e
        | Except.ok hb => xorBuffers acc hb) = _
      rw [hhex]
      show xorBuffers acc (hexPairs (sha c).toList) = _
      exact xorBuffers_ok (by omega)
    have hxlen : (xorBytes acc (hexPairs (sha c).toList)).length = 32 := by
      rw [xorBytes_length]; omega
    obtain ⟨x, hb, hr, hx⟩ := ih
      (fun q hq => hcons q (List.mem_cons_of_mem _ hq)) _ hxlen
    refine ⟨x, ?_, ?_, hx⟩
    · rw [List.filterMap_cons, hentry, List.foldlM_cons, hbstep]
      simpa using hb
    · rw [List.foldlM_cons, hrstep]
      simpa using hr

/-- C1 (amended).  Key reconstruction equivalence: for a dependency tree
whose matched root is the router-dependent file's node, when the file's
dependency subtree repeats no path, has at least one non-router-dependent
descendant, and every non-router-dependent descendant has recorded non-empty
content whose SHA-256 hex digest (64 characters) the live table carries under
the bare file name, the key computed at build time by
`computeKeyForRouterFile` and the key reconstructed at run time by
`routerForwardCall`'s branch collection and hash fold from the published mask
are bit-identical. -/
theorem key_reconstruction_equivalence (tree : DependencyTree)
    (fileKey rootPath : String) (n : Node) (fc : String → Option String)
    (sha : String → String) (live : String → Option String) (mask : List Nat)
    (hfind : findRoot tree fileKey = some (rootPath, n))
    (hrouter : n.routerDependant = true)
    (hnodup : (allPathsN n).Nodup)
    (hne : nonRouterPathsN n ≠ [])
    (hcons : ∀ p ∈ nonRouterPathsN n, ∃ c, fc p = some c ∧ c ≠ "" ∧
      live (routerFileNameOf p) = some (sha c) ∧ (sha c).length = 64)
    (hmask : mask.length = 32) (hmaskb : ∀ b ∈ mask, b < 256) :
    ∃ K, computeKeyForRouterFile n fc sha mask = Except.ok K ∧
      routerReconstructKey tree fileKey live (uint8ArrayToHexString mask)
        = Except.ok (RouterSyncResult.key K) := by
  have hcleanB := collectHashesN_clean fc sha n [] hnodup (by simp)
  have hcleanR := collectDepsN_clean n [] [] hnodup (by simp)
  obtain ⟨x, hbuildf, hrunf, hxlen⟩ := build_run_fold_eq fc sha live
    (nonRouterPathsN n) hcons zeros32 (by simp [zeros32])
  have hxor : xorBuffers x mask = .ok (xorBytes x mask) :=
    xorBuffers_ok (by omega)
  refine ⟨xorBytes x mask, ?_, ?_⟩
  · unfold computeKeyForRouterFile
    rw [hcleanB]
    show (match (nonRouterPathsN n).filterMap (collectedEntry fc sha)
        |>.foldlM collectedHashStep zeros32 with
      | Except.error e => Except.error e
      | Except.ok x => xorBuffers x mask) = _
    rw [hbuildf]
    exact hxor
  · have hbf : branchFilesOf tree fileKey = .ok (nonRouterPathsN n) := by
      unfold branchFilesOf
      rw [hfind]
      simp [hrouter, hcleanR]
    have hbe : (nonRouterPathsN n).isEmpty = false := by
      cases hcl : nonRouterPathsN n with
      | nil => exact absurd hcl hne
      | cons _ _ => rfl
    have hfold : foldBranchHashes (nonRouterPathsN n) live = .ok x := hrunf
    have hmaskhex : hexStringToUint8Array (uint8ArrayToHexString mask)
        = .ok mask := hexString_roundtrip mask hmaskb
    simp only [routerReconstructKey, hbf, hbe, Bool.false_eq_true, if_false,
      hfold, uint8ArrayFalsy, hmaskhex, hxor]

/-- C1 counterexample (claim as stated is false): this dependency tree
repeats the router-dependent path `"X.js"` under two branches with different
occurrence subtrees, as the analyzer's copy-on-branch visited set can
produce.  The build walk's shared visited set prunes the second occurrence
wholesale and never reaches the non-router file `"Y.js"`, so the build key is
the bare mask; the run-time walk recurses into every occurrence, collects
`"Y.js"`, and folds its live hash in, yielding a different key — although the
live table maps the bare file name to the digest of exactly the content the
build recorded, as the claim requires. -/
theorem key_reconstruction_mismatch :
    (computeKeyForRouterFile
        (Node.mk true (DepList.cons "P.js"
          (Node.mk true (DepList.cons "X.js" (Node.mk true DepList.nil)
            DepList.nil))
          (DepList.cons "Q.js"
            (Node.mk true (DepList.cons "X.js"
              (Node.mk true (DepList.cons "Y.js" (Node.mk false DepList.nil)
                DepList.nil))
              DepList.nil))
            DepList.nil)))
        (fun p => if p = "Y.js" then some "y" else none)
        (fun _ => String.mk (List.replicate 63 '0' ++ ['1']))
        zeros32
      = Except.ok zeros32) ∧
    (routerReconstructKey
        [("R.js", Node.mk true (DepList.cons "P.js"
          (Node.mk true (DepList.cons "X.js" (Node.mk true DepList.nil)
            DepList.nil))
          (DepList.cons "Q.js"
            (Node.mk true (DepList.cons "X.js"
              (Node.mk true (DepList.cons "Y.js" (Node.mk false DepList.nil)
                DepList.nil))
              DepList.nil))
            DepList.nil)))]
        "R.js"
        (fun nm => if nm = "Y.js"
          then some (String.mk (List.replicate 63 '0' ++ ['1'])) else none)
        (uint8ArrayToHexString zeros32)
      = Except.ok (RouterSyncResult.key
          [0, 0, 0, 0, 0, 0, 0, 0, 0, 0, 0, 0, 0, 0, 0, 0,
           0, 0, 0, 0, 0, 0, 0, 0, 0, 0, 0, 0, 0, 0, 0, 1])) ∧
    ([0, 0, 0, 0, 0, 0, 0, 0, 0, 0, 0, 0, 0, 0, 0, 0,
      0, 0, 0, 0, 0, 0, 0, 0, 0, 0, 0, 0, 0, 0, 0, 1] : List Nat) ≠ zeros32 ∧
    ((fun nm => if nm = "Y.js"
        then some (String.mk (List.replicate 63 '0' ++ ['1'])) else none) :
      String → Option String) "Y.js"
      = some ((fun _ => String.mk (List.replicate 63 '0' ++ ['1'])) "y") ∧
    ((fun p => if p = "Y.js" then some "y" else none) :
      String → Option String) "Y.js" = some "y" :=
  ⟨rfl, rfl, by decide, rfl, rfl⟩

/-- C1 witness: the amended theorem applied to a one-dependency subtree with
consistent contents, digests and live hashes and the all-zero mask. -/
theorem key_reconstruction_equivalence_witness :
    ∃ K, computeKeyForRouterFile
        (Node.mk true (DepList.cons "Y.js" (Node.mk false DepList.nil)
          DepList.nil))
        (fun _ => some "y") (fun _ => String.mk (List.replicate 64 '0')) zeros32
        = Except.ok K ∧
      routerReconstructKey
        [("R.js", Node.mk true (DepList.cons "Y.js" (Node.mk false DepList.nil)
          DepList.nil))]
        "R.js" (fun _ => some (String.mk (List.replicate 64 '0')))
        (uint8ArrayToHexString zeros32)
        = Except.ok (RouterSyncResult.key K) :=
  key_reconstruction_equivalence _ "R.js" "R.js"
    (Node.mk true (DepList.cons "Y.js" (Node.mk false DepList.nil) DepList.nil))
    (fun _ => some "y") (fun _ => String.mk (List.replicate 64 '0'))
    (fun _ => some (String.mk (List.replicate 64 '0'))) zeros32
    rfl rfl (by decide) (by decide)
    (by
      intro p hp
      exact ⟨"y", rfl, by decide, rfl, by decide⟩)
    (by decide) (by decide)

/-- C9.  Cycle termination: for the two-file project in which `A.js` calls
into `B.js` and `B.js` calls back into `A.js`, the analyzer's
`processFile` — with its copy-on-branch visited set, and total by the
strictly decreasing count of unvisited project files — terminates on both
roots and produces the finite trees in which the back edge is cut by the
branch's visited set, for every router classification of the two files; the
run-time branch collection over the resulting finite tree is a total
structural traversal and likewise terminates, yielding the
non-router-dependent dependency. -/
theorem processFile_cycle_terminates (rA rB : Bool) :
    processFile ["A.js", "B.js"]
        (fun f => if f = "A.js" then ["B.js"]
          else if f = "B.js" then ["A.js"] else [])
        (fun _ => true) (fun f => if f = "A.js" then rA else rB) "A.js" []
      = some (Node.mk rA (DepList.cons "B.js" (Node.mk rB DepList.nil)
          DepList.nil)) ∧
    processFile ["A.js", "B.js"]
        (fun f => if f = "A.js" then ["B.js"]
          else if f = "B.js" then ["A.js"] else [])
        (fun _ => true) (fun f => if f = "A.js" then rA else rB) "B.js" []
      = some (Node.mk rB (DepList.cons "A.js" (Node.mk rA DepList.nil)
          DepList.nil)) ∧
    (collectDepsN (Node.mk rA (DepList.cons "B.js" (Node.mk rB DepList.nil)
        DepList.nil)) [] []).1
      = (if rB then [] else ["B.js"]) := by
  refine ⟨?_, ?_, ?_⟩
  · simp [processFile, processDeps, dedupDeps, insertOverwrite, toDepList]
  · simp [processFile, processDeps, dedupDeps, insertOverwrite, toDepList]
  · cases rB <;> simp [collectDepsN, collectDepsD, Node.routerDependant]

/-- C7 witness: the theorem applied to a concrete two-element swap. -/
theorem xorFold_perm_invariant_witness :
    ([List.replicate 32 0, List.replicate 32 7].Perm
        [List.replicate 32 7, List.replicate 32 0] ∧
      (∀ h ∈ [List.replicate 32 0, List.replicate 32 7],
        List.length h = 32)) ∧
    xorFold [List.replicate 32 0, List.replicate 32 7] =
      xorFold [List.replicate 32 7, List.replicate 32 0] :=
  ⟨⟨by decide, by decide⟩,
    xorFold_perm_invariant _ _ (by decide) (by decide)⟩

end JsAntiplagiarism
